import Mathlib

/-!
# Verification of the SHL GenAI Assessment Recommender core

A shallow embedding, in Lean 4, of the tagging/classification engine and the
hybrid retrieval engine of the repository:

* `src/clean_catalog.py` — skill-pattern registry and `extract_skills`;
* `src/rule_type_classifier.py` — `rule_infer_type` with its keyword table and
  tie-breaking priority list;
* `src/app.py` — `boost_by_text_match`, `safe_float` and the `/recommend`
  handler candidate construction, boosting, truncation and field projection.

Modelling conventions:

* Python strings are Lean `String`s; the character-level work is done on
  `List Char`.  the Python `str.lower` and the `\w` character class are modelled
  at ASCII precision (`Char.toLower`, alphanumeric-or-underscore), which is
  exact on every pattern literal occurring in the repository.
* Every compiled regex in the source is a word-boundary-delimited escaped
  literal `\b…\b` (case-insensitive), and every such literal starts and ends
  with a word character, so `pattern.search(text)` is: the literal occurs in
  the text at a position whose left and right neighbours (when they exist) are
  non-word characters.  `wbSearch` below implements exactly that.
* Python `float` scores are modelled as exact rationals `ℚ`; the boost
  increments are multiples of 1/4, so ordering facts are faithful.  The
  distances handed back by the nearest-neighbour collaborator may be NaN or
  infinite, which `ℚ` cannot represent, so they are modelled by the `PyFloat`
  type with explicit non-finite constructors.
* `list.sort(key=..., reverse=True)` (the Python stable Timsort) is modelled by
  the Mathlib `List.insertionSort` with the reflexive descending-score relation:
  any stable sort with the same comes-before decision computes the same list.
-/

/-! ## Character-level text utilities -/

/-- the Python `\w` class at ASCII precision: letters, digits, underscore. -/
def isWordChar (c : Char) : Bool := c.isAlphanum || c == '_'

/-- Model: `str.lower` on a character list (ASCII precision, exact on all patterns). -/
def lowerL (l : List Char) : List Char := l.map Char.toLower

/-- Model: `str.lower` on a string. -/
def lowerS (s : String) : String := ⟨lowerL s.toList⟩

/-- Does the right-hand boundary of a word-boundary match hold at `rest`
(the characters following the matched literal)?  True at end of string or
before a non-word character. -/
def boundaryAfter : List Char → Bool
  | [] => true
  | c :: _ => !isWordChar c

/-- Model: `wbSearchAux pat prevBoundary t`: does `pat` occur in `t` at some position
with word boundaries on both sides?  `prevBoundary` records whether the
character immediately before `t` (or the start of the string) is a boundary
for a pattern starting with a word character. -/
def wbSearchAux (pat : List Char) : Bool → List Char → Bool
  | _, [] => false
  | prevBoundary, c :: rest =>
    (prevBoundary && pat.isPrefixOf (c :: rest)
        && boundaryAfter (List.drop pat.length (c :: rest)))
    || wbSearchAux pat (!isWordChar c) rest

/-- Model: `re.search(r"\b<literal>\b", t, re.I)` for a lowercase literal `pat`
against an already-lowercased text `t` (all the repository literals start
and end with word characters). -/
def wbSearch (pat t : List Char) : Bool := wbSearchAux pat true t

/-- Model: `re.compile(rf"\b{re.escape(p)}\b", re.I).search(text)` on string level:
both the pattern and the text are lowercased, matching `re.I` over the
repository ASCII literals. -/
def wbSearchS (pat text : String) : Bool :=
  wbSearch (lowerL pat.toList) (lowerL text.toList)

/-- the Python substring containment `needle in hay` on character lists. -/
def isSubstrL : List Char → List Char → Bool
  | n, [] => n.isEmpty
  | n, c :: cs => n.isPrefixOf (c :: cs) || isSubstrL n cs

/-- the Python substring containment `needle in hay` on strings. -/
def isSubstrS (needle hay : String) : Bool := isSubstrL needle.toList hay.toList

/-- the Python `str.strip()` (whitespace at both ends removed). -/
def pyStrip (s : String) : String :=
  ⟨((s.toList.dropWhile Char.isWhitespace).reverse.dropWhile Char.isWhitespace).reverse⟩

/-- Maximal runs of word characters, as produced by `re.split on non-word runs`
after discarding empty fragments (the caller filters on length anyway).
`acc` holds the current run, reversed. -/
def tokenRuns (acc : List Char) : List Char → List (List Char)
  | [] => if acc.isEmpty then [] else [acc.reverse]
  | c :: cs =>
    if isWordChar c then tokenRuns (c :: acc) cs
    else if acc.isEmpty then tokenRuns [] cs
    else acc.reverse :: tokenRuns [] cs

/-- Model: `[t for t in re.split on non-word runs if len(t) > 1]` as strings. -/
def tokensOf (q : String) : List String :=
  ((tokenRuns [] q.toList).filter (fun t => 1 < t.length)).map List.asString

/-! ## `src/clean_catalog.py`: the skill-pattern registry -/

/-- Model: `CANONICAL_SKILLS` from `src/clean_catalog.py`. -/
def CANONICAL_SKILLS : List String :=
  ["sql", "java", "javascript", "python", "react", "aws", "excel",
   "communication", "leadership", "teamwork", "sales", "verbal",
   "numerical", "logical", "management", "customer service",
   "cognitive", "data warehousing", "data entry", "hadoop", "spark",
   "tableau", "power bi", "nlp", "machine learning", "deep learning",
   "devops", "docker", "kubernetes", "microsoft office"]

/-- Model: `SYNONYMS` from `src/clean_catalog.py`, as (alternate, canonical) pairs in
the dict insertion order (Python dicts preserve insertion order). -/
def SYNONYMS : List (String × String) :=
  [("aws", "aws"), ("amazon", "aws"), ("amazon web services", "aws"),
   ("amazon-aws", "aws"), ("amazon aws", "aws"), ("cloud", "aws"),
   ("ms sql", "sql"), ("mssql", "sql"), ("mysql", "sql"),
   ("postgres", "sql"), ("postgresql", "sql"),
   ("java script", "javascript"), ("js", "javascript"),
   ("ms excel", "excel"), ("microsoft excel", "excel"),
   ("ms office", "microsoft office"),
   ("datawarehouse", "data warehousing"), ("data-warehousing", "data warehousing"),
   ("data warehouse", "data warehousing"), ("powerbi", "power bi"),
   ("natural language processing", "nlp"), ("nlp", "nlp"),
   ("deep-learning", "deep learning"), ("ml", "machine learning"),
   ("k8s", "kubernetes"),
   ("customer-service", "customer service"), ("customerservice", "customer service"),
   ("call centre", "customer service"), ("call center", "customer service")]

/-- Model: `MULTI_WORD_SKILLS` from `src/clean_catalog.py`. -/
def MULTI_WORD_SKILLS : List String :=
  ["data warehousing", "data entry", "machine learning", "deep learning",
   "customer service", "power bi", "natural language processing",
   "microsoft office"]

/-- Stable insertion of `x` into a length-descending list: `x` goes after
every element of length ≥ its own, matching the stability of the Python
`sorted(..., key=lambda x: -len(x))` when inserting later elements. -/
def insertByLen (x : String) : List String → List String
  | [] => [x]
  | y :: ys => if y.length < x.length then x :: y :: ys else y :: insertByLen x ys

/-- Model: `sorted(l, key=lambda x: -len(x))`: stable sort by decreasing length. -/
def sortByLenDesc (l : List String) : List String :=
  l.foldl (fun acc x => insertByLen x acc) []

/-- Model: `_skill_patterns` from `src/clean_catalog.py`: an ordered list of
(canonical label, pattern literal) pairs — multi-word phrases longest-first,
then synonyms each labelled with its canonical target, then the canonical
single tokens whose label is not already among the first two groups.  All
the source literals are lowercase, and the `.lower()` calls of the code are kept. -/
def skillPatterns : List (String × String) :=
  (sortByLenDesc MULTI_WORD_SKILLS).map (fun p => (lowerS p, p))
    ++ SYNONYMS.map (fun ac => (lowerS ac.2, ac.1))
    ++ (CANONICAL_SKILLS.filter (fun s =>
          !(((sortByLenDesc MULTI_WORD_SKILLS).map (fun p => lowerS p)
              ++ SYNONYMS.map (fun ac => lowerS ac.2)).contains (lowerS s)))).map
        (fun s => (lowerS s, s))

/-- The `found` list of `extract_skills`: the canonical labels of the
patterns that match the (lowercased) text, in pattern-list order. -/
def foundLabels (text : String) : List String :=
  (skillPatterns.filter (fun p => wbSearchS p.2 text)).map Prod.fst

/-- The deduplication loop of `extract_skills` (`seen` set + `result` list):
keeps the first occurrence of each label, preserving order. -/
def dedupSeen (seen : List String) : List String → List String
  | [] => []
  | x :: xs =>
    if x ∈ seen then dedupSeen seen xs else x :: dedupSeen (x :: seen) xs

/-- Model: `extract_skills` from `src/clean_catalog.py`, as the `result` list before
the final `",".join(...)` (empty input short-circuits to the empty result). -/
def extract_skills_list (text : String) : List String :=
  if text = "" then [] else dedupSeen [] (foundLabels text)

/-- Model: `extract_skills` from `src/clean_catalog.py`: the comma-joined string. -/
def extract_skills (text : String) : String :=
  if text = "" then "" else String.intercalate "," (dedupSeen [] (foundLabels text))

/-! ## `src/rule_type_classifier.py` -/

/-- Model: `TYPE_KEYWORDS` from `src/rule_type_classifier.py`, in dict insertion
order. -/
def TYPE_KEYWORDS : List (String × List String) :=
  [("A", ["ability", "aptitude", "cognitive", "reasoning",
          "numerical", "verbal ability", "verbal", "logic", "logical"]),
   ("B", ["biodata", "situational judgement", "sjt",
          "scenario based", "what would you do"]),
   ("C", ["competency", "competencies", "competency framework", "ucf"]),
   ("D", ["360", "leadership development", "development report",
          "feedback report", "development center", "assessment center"]),
   ("E", ["assessment exercise", "exercise", "assessment exercises"]),
   ("K", ["skill", "skills", "technical", "coding", "programming",
          "knowledge", "sql", "java", "python", "it skills"]),
   ("P", ["personality", "motivational", "behaviour", "behavior",
          "leadership style", "opq", "mq", "team types",
          "interpersonal", "communication", "traits", "psychometric"]),
   ("S", ["simulation", "simulations", "call center simulation",
          "job simulation", "scenario simulation"]),
   ("V", ["video interview", "smart interview", "recorded interview",
          "video feedback"])]

/-- Model: `PRIORITY` from `src/rule_type_classifier.py`. -/
def PRIORITY : List String := ["K", "P", "A", "S", "V", "D", "C", "E", "B"]

/-- The score loop of `rule_infer_type`: each category paired with the number
of its distinct keyword patterns that match the lowercased text (each compiled
pattern is tested once, so occurrences beyond the first do not add). -/
def typeScores (text : String) : List (String × Nat) :=
  TYPE_KEYWORDS.map (fun tk => (tk.1, tk.2.countP (fun k => wbSearchS k text)))

/-- Model: `best_score = max(scores.values())` of `rule_infer_type`. -/
def bestTypeScore (text : String) : Nat :=
  ((typeScores text).map Prod.snd).foldl max 0

/-- Model: `candidates = [t for t, v in scores.items() if v == best_score]` of
`rule_infer_type` (dict iteration order). -/
def typeCandidates (text : String) : List String :=
  ((typeScores text).filter (fun s => s.2 = bestTypeScore text)).map Prod.fst

/-- Model: `rule_infer_type` from `src/rule_type_classifier.py`.  The `none` branch
models the final `return candidates[0]` fallback (reaching it with an empty
`candidates` would raise in Python; it is proven unreachable in any case). -/
def rule_infer_type (text : String) : String :=
  if bestTypeScore text = 0 then "K"
  else
    match PRIORITY.find? (fun p => (typeCandidates text).contains p) with
    | some p => p
    | none => (typeCandidates text).headD ""

/-! ## `src/app.py`: Python floats, candidates, boosting, the handler -/

/-- A Python `float` as far as the ranking pipeline observes it: either an
exact finite value (rounding is not modelled) or one of the non-finite
values. -/
inductive PyFloat where
  | finite (q : ℚ)
  | nan
  | posInf
  | negInf
deriving DecidableEq, Repr

/-- Model: `math.isfinite` on a modelled float. -/
def PyFloat.isFinite : PyFloat → Bool
  | .finite _ => true
  | _ => false

/-- the Python `1.0 - d` on a modelled float (`1.0 - nan = nan`,
`1.0 - inf = -inf`, `1.0 - (-inf) = inf`). -/
def oneMinus : PyFloat → PyFloat
  | .finite q => .finite (1 - q)
  | .nan => .nan
  | .posInf => .negInf
  | .negInf => .posInf

/-- Model: `safe_float` from `src/app.py`: a finite value passes through, anything
non-finite becomes the default (the `None` / non-numeric branches of the
Python `try` are subsumed by the non-finite constructors). -/
def safe_float (x : PyFloat) (default : ℚ := 0) : ℚ :=
  match x with
  | .finite q => q
  | _ => default

/-- One result record of the `/recommend` handler, after the sanitising
`str(...)` coercions.  `text_match_count` models the `_text_match_count`
key, absent (`none`) until `boost_by_text_match` sets it. -/
structure ResultRec where
  assessment_id : String
  assessment_name : String
  canonical_url : String
  test_type : String
  skills_tags : String
  canonical_text : String
  score : ℚ
  text_match_count : Option Nat := none
deriving DecidableEq, Repr

/-- The fixed `multi_phrases` list of `boost_by_text_match`. -/
def multi_phrases : List String :=
  ["power bi", "data warehousing", "machine learning", "deep learning",
   "amazon web services", "amazon aws"]

/-- The `desired` set of `boost_by_text_match`, for an already-lowercased
query `q`: the known multi-word phrases occurring in `q` plus every token of
`q` of length ≥ 2.  Being a Python `set`, it is deduplicated; only its
membership (hence the count of matching entries) is ever observed. -/
def desiredTerms (q : String) : List String :=
  dedupSeen [] ((multi_phrases.filter (fun p => isSubstrS p q)) ++ tokensOf q)

/-- The per-record match count of `boost_by_text_match`: how many desired
terms occur as substrings of the record lowercased canonical text.  The
`q = query.lower()` step of the source is performed here. -/
def matchCount (query : String) (r : ResultRec) : Nat :=
  (desiredTerms (lowerS query)).countP (fun d => isSubstrS d (lowerS r.canonical_text))

/-- The loop body of `boost_by_text_match`: recompose the score and record
the match count. -/
def boostRec (query : String) (boost : ℚ) (r : ResultRec) : ResultRec :=
  { r with score := r.score + (matchCount query r : ℚ) * boost,
           text_match_count := some (matchCount query r) }

/-- The comes-before relation of `results.sort(key=lambda x: x["score"],
reverse=True)`: descending score. -/
def scoreGe (a b : ResultRec) : Prop := b.score ≤ a.score

instance : DecidableRel scoreGe := fun a b => inferInstanceAs (Decidable (b.score ≤ a.score))

instance : IsTotal ResultRec scoreGe := ⟨fun a b => le_total b.score a.score⟩

instance : IsTrans ResultRec scoreGe := ⟨fun _ _ _ h1 h2 => le_trans h2 h1⟩

/-- Model: `boost_by_text_match` from `src/app.py`: falsy query returns the input
untouched (no boost, no sort); otherwise every record is recomposed and the
list stably re-sorted by descending composed score. -/
def boost_by_text_match (results : List ResultRec) (query : String)
    (boost : ℚ := 1/4) : List ResultRec :=
  if query = "" then results
  else List.insertionSort scoreGe (results.map (boostRec query boost))

/-- A catalog row as the handler reads it from the metadata table (fields
already coerced to strings by the sanitising block). -/
structure CatalogRow where
  assessment_id : String
  assessment_name : String
  canonical_url : String
  test_type : String
  skills_tags : String
  canonical_text : String
deriving DecidableEq, Repr, Inhabited

/-- The candidate record built from catalog row `row` and raw similarity
`score` inside the handler loop, including the second clamp
`if not math.isfinite(score) or abs(score) > 1e6: score = 0.0` (its operand
is already finite here, so only the magnitude test can fire). -/
def mkCandidate (row : CatalogRow) (score : ℚ) : ResultRec :=
  { assessment_id := row.assessment_id,
    assessment_name := row.assessment_name,
    canonical_url := row.canonical_url,
    test_type := row.test_type,
    skills_tags := row.skills_tags,
    canonical_text := row.canonical_text,
    score := if 1000000 < |score| then 0 else score }

/-- The candidate-building loop of the `/recommend` handler over the
`(distance, row-index)` pairs returned by `kneighbors`: out-of-range row
indices are skipped, similarity is `safe_float(1.0 - dist)` then clamped in
`mkCandidate`. -/
def buildCandidates (df : List CatalogRow) : List (PyFloat × Int) → List ResultRec
  | [] => []
  | (dist, idx) :: rest =>
    if idx < 0 ∨ (df.length : Int) ≤ idx then buildCandidates df rest
    else mkCandidate (df.getD idx.toNat default) (safe_float (oneMinus dist))
           :: buildCandidates df rest

/-- A record of the final payload: exactly the externally relevant fields,
no canonical text. -/
structure FinalRec where
  assessment_id : String
  assessment_name : String
  canonical_url : String
  test_type : String
  skills_tags : String
  score : ℚ
deriving DecidableEq, Repr

/-- The final-projection loop of the handler. -/
def toFinal (r : ResultRec) : FinalRec :=
  { assessment_id := r.assessment_id,
    assessment_name := r.assessment_name,
    canonical_url := r.canonical_url,
    test_type := r.test_type,
    skills_tags := r.skills_tags,
    score := r.score }

/-- The `/recommend` handler from `src/app.py`, from the parsed request to
the `recommendations` payload.  `query` is `data.get("query")` (`none` when
missing), `top_k` the parsed `top_k`, and `pairs` the `(distance, row-index)`
stream produced by the external `kneighbors` call. -/
def recommendModel (df : List CatalogRow) (query : Option String) (top_k : Int)
    (pairs : List (PyFloat × Int)) : List FinalRec :=
  let q := pyStrip (query.getD "")
  let k := if top_k ≤ 0 then 10 else top_k
  let out := buildCandidates df pairs
  let boosted := boost_by_text_match out q (1/4)
  (boosted.take k.toNat).map toFinal

/-- The fields of a result record other than `score` and `_text_match_count`
(the frame of `boost_by_text_match`). -/
def projOther (r : ResultRec) : String × String × String × String × String × String :=
  (r.assessment_id, r.assessment_name, r.canonical_url, r.test_type,
   r.skills_tags, r.canonical_text)

/-- Written from the words of the spec, for comparison with the handler code:
similarity is 1 minus the distance, replaced with 0.0 whenever that value is
non-finite or its absolute value exceeds 1e6. -/
def specSimilarity (d : PyFloat) : ℚ :=
  match oneMinus d with
  | .finite q => if 1000000 < |q| then 0 else q
  | _ => 0

/-! ### Concrete inputs used by witnesses and counterexamples -/

/-- A candidate whose canonical text contains one of the two query tokens. -/
def cexA : ResultRec :=
  { assessment_id := "A", assessment_name := "a", canonical_url := "",
    test_type := "", skills_tags := "", canonical_text := "python basics",
    score := 9/10 }

/-- A candidate whose canonical text contains both query tokens. -/
def cexB : ResultRec :=
  { assessment_id := "B", assessment_name := "b", canonical_url := "",
    test_type := "", skills_tags := "", canonical_text := "python and sql",
    score := 8/10 }

/-- A candidate matching no token of the query `"kubernetes"`. -/
def wit1 : ResultRec :=
  { assessment_id := "W1", assessment_name := "w1", canonical_url := "",
    test_type := "", skills_tags := "", canonical_text := "alpha",
    score := 1 }

/-- The single candidate matching the query `"kubernetes"`. -/
def wit2 : ResultRec :=
  { assessment_id := "W2", assessment_name := "w2", canonical_url := "",
    test_type := "", skills_tags := "", canonical_text := "kubernetes ops",
    score := 9/10 }

/-- Another candidate matching no token of the query `"kubernetes"`. -/
def wit3 : ResultRec :=
  { assessment_id := "W3", assessment_name := "w3", canonical_url := "",
    test_type := "", skills_tags := "", canonical_text := "beta",
    score := 1/2 }

/-- A one-row catalog used by the handler-level witnesses. -/
def witDf : List CatalogRow :=
  [{ assessment_id := "A0001", assessment_name := "SQL Test",
     canonical_url := "u", test_type := "K", skills_tags := "sql",
     canonical_text := "sql test" }]

/-- A distance/index stream exercising every branch of the candidate loop:
a NaN distance, an out-of-range index, a huge finite similarity, a negative
index, and a plain in-range pair. -/
def witPairs : List (PyFloat × Int) :=
  [(.nan, 0), (.finite (1/2), 5), (.finite (-2000000), 0),
   (.finite (1/5), -1), (.finite (1/10), 0)]


/-! ## Helper lemmas about the deduplication loop -/

theorem dedupSeen_sublist (l : List String) :
    ∀ seen, List.Sublist (dedupSeen seen l) l := by
  induction l with
  | nil => intro seen; simp [dedupSeen]
  | cons x xs ih =>
    intro seen
    by_cases h : x ∈ seen
    · rw [dedupSeen, if_pos h]
      exact (ih seen).trans (List.sublist_cons_self x xs)
    · rw [dedupSeen, if_neg h]
      exact (ih (x :: seen)).cons₂ x

theorem mem_dedupSeen (l : List String) :
    ∀ seen a, a ∈ dedupSeen seen l ↔ a ∈ l ∧ a ∉ seen := by
  induction l with
  | nil => intro seen a; simp [dedupSeen]
  | cons x xs ih =>
    intro seen a
    by_cases h : x ∈ seen
    · rw [dedupSeen, if_pos h, ih]
      constructor
      · rintro ⟨ha, hs⟩; exact ⟨List.mem_cons_of_mem x ha, hs⟩
      · rintro ⟨ha, hs⟩
        rcases List.mem_cons.1 ha with rfl | ha
        · exact absurd h hs
        · exact ⟨ha, hs⟩
    · rw [dedupSeen, if_neg h]
      constructor
      · intro hm
        rcases List.mem_cons.1 hm with rfl | hm
        · exact ⟨List.mem_cons_self a xs, h⟩
        · obtain ⟨ha, hs⟩ := (ih (x :: seen) a).1 hm
          exact ⟨List.mem_cons_of_mem x ha,
            fun hmem => hs (List.mem_cons_of_mem x hmem)⟩
      · rintro ⟨ha, hs⟩
        by_cases hax : a = x
        · exact hax ▸ List.mem_cons_self x _
        · rcases List.mem_cons.1 ha with rfl | ha
          · exact absurd rfl hax
          · refine List.mem_cons_of_mem x ((ih (x :: seen) a).2 ⟨ha, ?_⟩)
            intro hmem
            rcases List.mem_cons.1 hmem with rfl | hmem
            · exact hax rfl
            · exact hs hmem

theorem nodup_dedupSeen (l : List String) : ∀ seen, (dedupSeen seen l).Nodup := by
  induction l with
  | nil => intro seen; simp [dedupSeen]
  | cons x xs ih =>
    intro seen
    by_cases h : x ∈ seen
    · rw [dedupSeen, if_pos h]; exact ih seen
    · rw [dedupSeen, if_neg h, List.nodup_cons]
      refine ⟨fun hm => ?_, ih (x :: seen)⟩
      exact ((mem_dedupSeen xs (x :: seen) x).1 hm).2 (List.mem_cons_self x seen)

theorem pairwise_indexOf_dedupSeen (l : List String) :
    ∀ seen, (dedupSeen seen l).Pairwise (fun a b => l.indexOf a < l.indexOf b) := by
  induction l with
  | nil => intro seen; simp [dedupSeen]
  | cons x xs ih =>
    intro seen
    by_cases h : x ∈ seen
    · rw [dedupSeen, if_pos h]
      refine (ih seen).imp_of_mem ?_
      intro a b ha hb hlt
      have hax : a ≠ x := fun e => ((mem_dedupSeen xs seen a).1 ha).2 (e ▸ h)
      have hbx : b ≠ x := fun e => ((mem_dedupSeen xs seen b).1 hb).2 (e ▸ h)
      rw [List.indexOf_cons_ne _ (Ne.symm hax), List.indexOf_cons_ne _ (Ne.symm hbx)]
      exact Nat.succ_lt_succ hlt
    · rw [dedupSeen, if_neg h, List.pairwise_cons]
      constructor
      · intro b hb
        have hbx : b ≠ x := fun e =>
          ((mem_dedupSeen xs (x :: seen) b).1 hb).2 (e ▸ List.mem_cons_self x seen)
        rw [List.indexOf_cons_self, List.indexOf_cons_ne _ (Ne.symm hbx)]
        exact Nat.succ_pos _
      · refine (ih (x :: seen)).imp_of_mem ?_
        intro a b ha hb hlt
        have hax : a ≠ x := fun e =>
          ((mem_dedupSeen xs (x :: seen) a).1 ha).2 (e ▸ List.mem_cons_self x seen)
        have hbx : b ≠ x := fun e =>
          ((mem_dedupSeen xs (x :: seen) b).1 hb).2 (e ▸ List.mem_cons_self x seen)
        rw [List.indexOf_cons_ne _ (Ne.symm hax), List.indexOf_cons_ne _ (Ne.symm hbx)]
        exact Nat.succ_lt_succ hlt

/-! ## Claim C1 -/

/-- C1, counterexample. The claim says every label returned by
`extract_skills` lies in `CANONICAL_SKILLS` plus the canonical targets of the
synonym map.  On the input `"natural language processing"` the extractor
returns the multi-word phrase label `"natural language processing"` itself
(the phrase is a pattern label but only a *key* of the synonym map, whose
target is `"nlp"`), and that label is in neither list. -/
theorem extract_skills_label_outside_claimed_set :
    "natural language processing" ∈ extract_skills_list "natural language processing"
    ∧ "natural language processing" ∉ CANONICAL_SKILLS ++ SYNONYMS.map Prod.snd := by
  decide

/-- C1 (amended). For every input text, every label returned by
`extract_skills` lies in the canonical label set *enlarged with the
multi-word phrase labels* (`CANONICAL_SKILLS`, the synonym targets, and
`MULTI_WORD_SKILLS`); no label appears twice; and the returned labels appear
in first-discovery order of the pattern scan: the result is a sublist of the
hit list of the scan `foundLabels`, keeps every hit, and is ordered by each
label first index in that hit list. -/
theorem extract_skills_canonical_nodup_firstDiscovery (text : String) :
    (∀ l ∈ extract_skills_list text,
        l ∈ CANONICAL_SKILLS ++ SYNONYMS.map Prod.snd ++ MULTI_WORD_SKILLS)
    ∧ (extract_skills_list text).Nodup
    ∧ List.Sublist (extract_skills_list text) (foundLabels text)
    ∧ (∀ l ∈ foundLabels text, l ∈ extract_skills_list text)
    ∧ (extract_skills_list text).Pairwise
        (fun a b => (foundLabels text).indexOf a < (foundLabels text).indexOf b) := by
  have hall : ∀ p ∈ skillPatterns,
      p.1 ∈ CANONICAL_SKILLS ++ SYNONYMS.map Prod.snd ++ MULTI_WORD_SKILLS := by decide
  by_cases h0 : text = ""
  · subst h0
    have hfound : foundLabels "" = [] := by decide
    refine ⟨?_, ?_, ?_, ?_, ?_⟩ <;>
      simp [extract_skills_list, hfound]
  · have hlist : extract_skills_list text = dedupSeen [] (foundLabels text) := by
      rw [extract_skills_list, if_neg h0]
    refine ⟨?_, ?_, ?_, ?_, ?_⟩
    · intro l hl
      rw [hlist] at hl
      have hmem : l ∈ foundLabels text :=
        ((mem_dedupSeen (foundLabels text) [] l).1 hl).1
      rw [foundLabels] at hmem
      obtain ⟨p, hp, rfl⟩ := List.mem_map.1 hmem
      exact hall p (List.mem_filter.1 hp).1
    · rw [hlist]; exact nodup_dedupSeen (foundLabels text) []
    · rw [hlist]; exact dedupSeen_sublist (foundLabels text) []
    · intro l hl
      rw [hlist]
      exact (mem_dedupSeen (foundLabels text) [] l).2 ⟨hl, List.not_mem_nil l⟩
    · rw [hlist]; exact pairwise_indexOf_dedupSeen (foundLabels text) []

/-- C1, witness: the amended theorem evaluated at a concrete text that
exercises a multi-word phrase, a synonym and a canonical single token. -/
theorem extract_skills_canonical_nodup_firstDiscovery_witness :
    (∀ l ∈ extract_skills_list "Python, ms excel and power bi",
        l ∈ CANONICAL_SKILLS ++ SYNONYMS.map Prod.snd ++ MULTI_WORD_SKILLS)
    ∧ (extract_skills_list "Python, ms excel and power bi").Nodup
    ∧ List.Sublist (extract_skills_list "Python, ms excel and power bi")
        (foundLabels "Python, ms excel and power bi")
    ∧ (∀ l ∈ foundLabels "Python, ms excel and power bi",
        l ∈ extract_skills_list "Python, ms excel and power bi")
    ∧ (extract_skills_list "Python, ms excel and power bi").Pairwise
        (fun a b => (foundLabels "Python, ms excel and power bi").indexOf a
          < (foundLabels "Python, ms excel and power bi").indexOf b) :=
  extract_skills_canonical_nodup_firstDiscovery "Python, ms excel and power bi"

/-! ## Claim C4 -/

/-- C4. The constructed pattern list `_skill_patterns` is: first the
multi-word phrase entries — a permutation of `MULTI_WORD_SKILLS`, ordered by
decreasing phrase length, ties keeping the original input order — then the
synonym entries, each labelled with the mapped canonical label, then the
canonical single-token entries, where a canonical token is skipped exactly
when its label already occurs as the label of one of the first two groups. -/
theorem skillPatterns_three_groups :
    ((skillPatterns.take MULTI_WORD_SKILLS.length).map Prod.fst).Perm MULTI_WORD_SKILLS
    ∧ ((skillPatterns.take MULTI_WORD_SKILLS.length).map Prod.snd).Pairwise
        (fun a b => b.length ≤ a.length)
    ∧ (∀ a ∈ MULTI_WORD_SKILLS, ∀ b ∈ MULTI_WORD_SKILLS, a.length = b.length →
        (((skillPatterns.take MULTI_WORD_SKILLS.length).map Prod.fst).indexOf a
            ≤ ((skillPatterns.take MULTI_WORD_SKILLS.length).map Prod.fst).indexOf b
          ↔ MULTI_WORD_SKILLS.indexOf a ≤ MULTI_WORD_SKILLS.indexOf b))
    ∧ (skillPatterns.drop MULTI_WORD_SKILLS.length).take SYNONYMS.length
        = SYNONYMS.map (fun ac => (ac.2, ac.1))
    ∧ skillPatterns.drop (MULTI_WORD_SKILLS.length + SYNONYMS.length)
        = (CANONICAL_SKILLS.filter (fun s =>
            !(((skillPatterns.take (MULTI_WORD_SKILLS.length + SYNONYMS.length)).map
                Prod.fst).contains s))).map (fun s => (s, s)) := by
  decide

/-! ## Helper lemmas about the type classifier -/

theorem foldl_max_eq_or_mem (l : List Nat) : ∀ a, l.foldl max a = a ∨ l.foldl max a ∈ l := by
  induction l with
  | nil => intro a; exact Or.inl rfl
  | cons x xs ih =>
    intro a
    rw [List.foldl_cons]
    rcases max_choice a x with hm | hm <;> rw [hm]
    · rcases ih a with h | h
      · exact Or.inl h
      · exact Or.inr (List.mem_cons_of_mem x h)
    · rcases ih x with h | h
      · exact Or.inr (by rw [h]; exact List.mem_cons_self x xs)
      · exact Or.inr (List.mem_cons_of_mem x h)

theorem foldl_max_of_all_le (l : List Nat) :
    ∀ a, (∀ x ∈ l, x ≤ a) → l.foldl max a = a := by
  induction l with
  | nil => intro a _; rfl
  | cons x xs ih =>
    intro a h
    have hx : max a x = a := max_eq_left (h x (List.mem_cons_self x xs))
    simpa [List.foldl_cons, hx] using
      ih a (fun y hy => h y (List.mem_cons_of_mem x hy))

theorem find?_indexOf_le (l : List String) (f : String → Bool) (a : String)
    (h : l.find? f = some a) : ∀ b, f b → l.indexOf a ≤ l.indexOf b := by
  induction l with
  | nil => cases h
  | cons x xs ih =>
    intro b hb
    by_cases hx : f x
    · rw [List.find?_cons_of_pos _ hx] at h
      cases h
      rw [List.indexOf_cons_self]
      exact Nat.zero_le _
    · rw [List.find?_cons_of_neg _ hx] at h
      have ha : f a := List.find?_some h
      have hax : a ≠ x := fun e => hx (e ▸ ha)
      have hbx : b ≠ x := fun e => hx (e ▸ hb)
      rw [List.indexOf_cons_ne _ (Ne.symm hax), List.indexOf_cons_ne _ (Ne.symm hbx)]
      exact Nat.succ_le_succ (ih h b hb)

/-- Membership in the tied-maximum candidate list, unfolded to the keyword
table. -/
theorem mem_typeCandidates (text : String) (t : String) :
    t ∈ typeCandidates text ↔
      ∃ kws, (t, kws) ∈ TYPE_KEYWORDS ∧
        kws.countP (fun k => wbSearchS k text) = bestTypeScore text := by
  constructor
  · intro ht
    obtain ⟨s, hs, rfl⟩ := List.mem_map.1 ht
    obtain ⟨hmem, hbest⟩ := List.mem_filter.1 hs
    obtain ⟨⟨t1, kws⟩, htk, heq⟩ := List.mem_map.1 hmem
    subst heq
    exact ⟨kws, htk, of_decide_eq_true hbest⟩
  · rintro ⟨kws, hmem, hbest⟩
    refine List.mem_map.2 ⟨(t, kws.countP (fun k => wbSearchS k text)), ?_, rfl⟩
    refine List.mem_filter.2 ⟨List.mem_map.2 ⟨(t, kws), hmem, rfl⟩, ?_⟩
    exact decide_eq_true hbest

/-- When some keyword matched, the `for p in PRIORITY` loop of
`rule_infer_type` finds a tied candidate (the final fallback is dead code). -/
theorem priority_find_isSome (text : String) (h : bestTypeScore text ≠ 0) :
    (PRIORITY.find? (fun p => (typeCandidates text).contains p)).isSome := by
  have hkeys : ∀ tk ∈ TYPE_KEYWORDS, tk.1 ∈ PRIORITY := by decide
  rcases foldl_max_eq_or_mem ((typeScores text).map Prod.snd) 0 with h0 | hmem
  · exact absurd h0 h
  · obtain ⟨s, hs, hsnd⟩ := List.mem_map.1 hmem
    have hcand : s.1 ∈ typeCandidates text :=
      List.mem_map.2 ⟨s, List.mem_filter.2 ⟨hs, decide_eq_true hsnd⟩, rfl⟩
    obtain ⟨⟨t1, kws⟩, htk, heq⟩ := List.mem_map.1 hs
    subst heq
    have hpri : ((t1, kws.countP (fun k => wbSearchS k text)) : String × Nat).1 ∈ PRIORITY :=
      hkeys (t1, kws) htk
    cases hfind : PRIORITY.find? (fun p => (typeCandidates text).contains p) with
    | some p => rfl
    | none =>
      have := List.find?_eq_none.1 hfind t1 hpri
      simp only [List.contains_eq_any_beq] at this
      exact absurd (List.any_eq_true.2 ⟨t1, hcand, by simp⟩) this

/-! ## Claim C3 -/

/-- C3. When at least one keyword matched (`best_score ≠ 0`), each
category score is the number of distinct keyword patterns of that category
matching the lowercased text — the tied-maximum candidates are exactly the
categories whose pattern-match count equals the maximum — and
`rule_infer_type` returns a tied-maximum candidate that comes earliest in the
fixed `PRIORITY` list; being a pure function of the text, the choice is
deterministic. -/
theorem rule_infer_type_distinct_counts_and_priority_tiebreak (text : String)
    (h : bestTypeScore text ≠ 0) :
    (∀ t, t ∈ typeCandidates text ↔
        ∃ kws, (t, kws) ∈ TYPE_KEYWORDS ∧
          kws.countP (fun k => wbSearchS k text) = bestTypeScore text)
    ∧ rule_infer_type text ∈ typeCandidates text
    ∧ ∀ p ∈ typeCandidates text,
        PRIORITY.indexOf (rule_infer_type text) ≤ PRIORITY.indexOf p := by
  have hsome := priority_find_isSome text h
  cases hfind : PRIORITY.find? (fun p => (typeCandidates text).contains p) with
  | none => rw [hfind] at hsome; cases hsome
  | some p =>
    have hres : rule_infer_type text = p := by
      rw [rule_infer_type, if_neg h, hfind]
    refine ⟨mem_typeCandidates text, ?_, ?_⟩
    · rw [hres]
      have := List.find?_some hfind
      simp only [List.contains_eq_any_beq, List.any_eq_true] at this
      obtain ⟨c, hc, hcb⟩ := this
      obtain rfl : p = c := by simpa using hcb
      exact hc
    · intro p' hp'
      rw [hres]
      refine find?_indexOf_le PRIORITY _ p hfind p' ?_
      simp only [List.contains_eq_any_beq, List.any_eq_true]
      exact ⟨p', hp', by simp⟩

/-- C3, witness: on `"communication skills"` categories K and P tie with
score 1 and the earlier priority entry K wins. -/
theorem rule_infer_type_tiebreak_witness :
    bestTypeScore "communication skills" ≠ 0
    ∧ ((∀ t, t ∈ typeCandidates "communication skills" ↔
          ∃ kws, (t, kws) ∈ TYPE_KEYWORDS ∧
            kws.countP (fun k => wbSearchS k "communication skills")
              = bestTypeScore "communication skills")
        ∧ rule_infer_type "communication skills" ∈ typeCandidates "communication skills"
        ∧ ∀ p ∈ typeCandidates "communication skills",
            PRIORITY.indexOf (rule_infer_type "communication skills")
              ≤ PRIORITY.indexOf p) :=
  ⟨by decide, rule_infer_type_distinct_counts_and_priority_tiebreak
    "communication skills" (by decide)⟩

/-! ## Claim C6 -/

/-- C6. When no category keyword pattern matches the text (so every
category score is zero), `rule_infer_type` returns the fixed default
category `"K"` instead of failing. -/
theorem rule_infer_type_default_on_no_match (text : String)
    (h : ∀ tk ∈ TYPE_KEYWORDS, ∀ k ∈ tk.2, wbSearchS k text = false) :
    rule_infer_type text = "K" := by
  have hzero : ∀ v ∈ (typeScores text).map Prod.snd, v = 0 := by
    intro v hv
    obtain ⟨s, hs, rfl⟩ := List.mem_map.1 hv
    obtain ⟨⟨t1, kws⟩, htk, heq⟩ := List.mem_map.1 hs
    subst heq
    exact List.countP_eq_zero.2 (fun k hk => by
      simp [h (t1, kws) htk k hk])
  have hbest : bestTypeScore text = 0 :=
    foldl_max_of_all_le ((typeScores text).map Prod.snd) 0
      (fun x hx => Nat.le_of_eq (hzero x hx))
  rw [rule_infer_type, if_pos hbest]

/-- C6, witness: the empty string matches no keyword pattern and is
classified `"K"`. -/
theorem rule_infer_type_default_witness :
    (∀ tk ∈ TYPE_KEYWORDS, ∀ k ∈ tk.2, wbSearchS k "" = false)
    ∧ rule_infer_type "" = "K" :=
  ⟨by decide, rule_infer_type_default_on_no_match "" (by decide)⟩

/-! ## Claim C9 -/

/-- C9. The `PRIORITY` list contains every category key of
`TYPE_KEYWORDS`, so the final first-candidate fallback of `rule_infer_type`
is unreachable: for every text the function returns via the zero-score
default or via the priority loop (whose `find?` succeeds whenever the best
score is nonzero), and its result is always one of the nine fixed category
codes. -/
theorem rule_infer_type_priority_covers_all_keys (text : String) :
    (∀ tk ∈ TYPE_KEYWORDS, tk.1 ∈ PRIORITY)
    ∧ rule_infer_type text ∈ PRIORITY
    ∧ (bestTypeScore text = 0 ∨
        (PRIORITY.find? (fun p => (typeCandidates text).contains p)).isSome) := by
  refine ⟨by decide, ?_, ?_⟩
  · by_cases h : bestTypeScore text = 0
    · rw [rule_infer_type, if_pos h]; decide
    · have hsome := priority_find_isSome text h
      cases hfind : PRIORITY.find? (fun p => (typeCandidates text).contains p) with
      | none => rw [hfind] at hsome; cases hsome
      | some p =>
        rw [rule_infer_type, if_neg h, hfind]
        exact List.mem_of_find?_eq_some hfind
  · by_cases h : bestTypeScore text = 0
    · exact Or.inl h
    · exact Or.inr (priority_find_isSome text h)

/-- C9, witness: the theorem evaluated at a text whose best score is
nonzero, exercising the priority-loop branch. -/
theorem rule_infer_type_priority_covers_all_keys_witness :
    (∀ tk ∈ TYPE_KEYWORDS, tk.1 ∈ PRIORITY)
    ∧ rule_infer_type "a coding simulation" ∈ PRIORITY
    ∧ (bestTypeScore "a coding simulation" = 0 ∨
        (PRIORITY.find? (fun p =>
          (typeCandidates "a coding simulation").contains p)).isSome) :=
  rule_infer_type_priority_covers_all_keys "a coding simulation"

/-! ## Claim C5 -/

/-- C5. The candidate loop of the `/recommend` handler keeps exactly the
`(distance, row-index)` pairs whose row index is in catalog range — pairs with
a negative or too-large index are silently dropped, the loop being total —
and gives each kept candidate the score `1 − distance`, replaced by `0.0`
whenever that value is non-finite or of magnitude above `1e6`
(`specSimilarity` is written from the words of the spec). -/
theorem buildCandidates_drops_bad_indices_and_clamps (df : List CatalogRow)
    (pairs : List (PyFloat × Int)) :
    buildCandidates df pairs
      = (pairs.filter (fun pr => decide (0 ≤ pr.2 ∧ pr.2 < (df.length : Int)))).map
          (fun pr => mkCandidate (df.getD pr.2.toNat default) (safe_float (oneMinus pr.1)))
    ∧ ∀ d : PyFloat, ∀ row : CatalogRow,
        (mkCandidate row (safe_float (oneMinus d))).score = specSimilarity d := by
  constructor
  · induction pairs with
    | nil => rfl
    | cons pr rest ih =>
      obtain ⟨d, i⟩ := pr
      by_cases h : i < 0 ∨ (df.length : Int) ≤ i
      · have hf : (decide (0 ≤ i ∧ i < (df.length : Int))) = false := by
          simp only [decide_eq_false_iff_not]
          omega
        rw [buildCandidates, if_pos h, ih, List.filter_cons_of_neg]
        simp [hf]
      · have ht : (decide (0 ≤ i ∧ i < (df.length : Int))) = true := by
          simp only [decide_eq_true_eq]
          omega
        rw [buildCandidates, if_neg h, ih, List.filter_cons_of_pos]
        · rfl
        · simp [ht]
  · intro d row
    cases d with
    | finite q => rfl
    | nan => simp [mkCandidate, safe_float, oneMinus, specSimilarity]
    | posInf => simp [mkCandidate, safe_float, oneMinus, specSimilarity]
    | negInf => simp [mkCandidate, safe_float, oneMinus, specSimilarity]

/-- C5, witness: the characterization evaluated on a stream containing a
NaN distance, two out-of-range indices and a magnitude overflow. -/
theorem buildCandidates_drops_bad_indices_and_clamps_witness :
    buildCandidates witDf witPairs
      = (witPairs.filter (fun pr => decide (0 ≤ pr.2 ∧ pr.2 < (witDf.length : Int)))).map
          (fun pr => mkCandidate (witDf.getD pr.2.toNat default) (safe_float (oneMinus pr.1)))
    ∧ ∀ d : PyFloat, ∀ row : CatalogRow,
        (mkCandidate row (safe_float (oneMinus d))).score = specSimilarity d :=
  buildCandidates_drops_bad_indices_and_clamps witDf witPairs

/-! ## Claim C7 -/

/-- C7. When the request query is missing or strips to the empty string,
the boosting step returns the candidate list untouched — scores unchanged, no
re-sort — so the handler output is the pure-similarity order of the vector
search, truncated and projected; the empty query flows through the same total
pipeline as any other, never an error path. -/
theorem recommend_empty_query_keeps_similarity_order (df : List CatalogRow)
    (query : Option String) (top_k : Int) (pairs : List (PyFloat × Int))
    (h : pyStrip (query.getD "") = "") :
    boost_by_text_match (buildCandidates df pairs) (pyStrip (query.getD "")) (1/4)
        = buildCandidates df pairs
    ∧ recommendModel df query top_k pairs
        = ((buildCandidates df pairs).take
            (if top_k ≤ 0 then (10 : Int) else top_k).toNat).map toFinal := by
  constructor
  · rw [h, boost_by_text_match, if_pos rfl]
  · rw [recommendModel]
    simp only [h, boost_by_text_match, if_pos rfl, if_true]

/-- C7, witness: a whitespace-only query over a one-row catalog. -/
theorem recommend_empty_query_keeps_similarity_order_witness :
    pyStrip ((some "   " : Option String).getD "") = ""
    ∧ (boost_by_text_match (buildCandidates witDf witPairs)
          (pyStrip ((some "   " : Option String).getD "")) (1/4)
        = buildCandidates witDf witPairs
      ∧ recommendModel witDf (some "   ") 3 witPairs
          = ((buildCandidates witDf witPairs).take
              (if (3 : Int) ≤ 0 then (10 : Int) else 3).toNat).map toFinal) :=
  ⟨by decide, recommend_empty_query_keeps_similarity_order witDf (some "   ") 3
    witPairs (by decide)⟩

/-! ## Claim C8 -/

/-- C8. A non-positive `top_k` is treated exactly as the default 10; the
final payload holds at most that many records; and every final record is the
six-field projection (identifier, name, URL, category, skill tags, composed
score — no canonical text, by the shape of `FinalRec`) of a boosted
candidate. -/
theorem recommend_topk_defaulted_truncated_projected (df : List CatalogRow)
    (query : Option String) (top_k : Int) (pairs : List (PyFloat × Int)) :
    recommendModel df query top_k pairs
      = recommendModel df query (if top_k ≤ 0 then 10 else top_k) pairs
    ∧ (recommendModel df query top_k pairs).length
        ≤ (if top_k ≤ 0 then (10 : Int) else top_k).toNat
    ∧ ∀ fr ∈ recommendModel df query top_k pairs,
        ∃ r ∈ boost_by_text_match (buildCandidates df pairs)
            (pyStrip (query.getD "")) (1/4), fr = toFinal r := by
  have hk : (if (if top_k ≤ 0 then (10 : Int) else top_k) ≤ 0 then (10 : Int)
      else if top_k ≤ 0 then (10 : Int) else top_k)
      = if top_k ≤ 0 then (10 : Int) else top_k := by
    split_ifs <;> omega
  refine ⟨?_, ?_, ?_⟩
  · rw [recommendModel, recommendModel, hk]
  · rw [recommendModel]
    simp only [List.length_map, List.length_take]
    exact min_le_left _ _
  · intro fr hfr
    rw [recommendModel] at hfr
    obtain ⟨r, hr, rfl⟩ := List.mem_map.1 hfr
    exact ⟨r, List.mem_of_mem_take hr, rfl⟩

/-- C8, witness: a negative `top_k` over a one-row catalog. -/
theorem recommend_topk_defaulted_truncated_projected_witness :
    recommendModel witDf (some "sql") (-3) witPairs
      = recommendModel witDf (some "sql") (if (-3 : Int) ≤ 0 then 10 else -3) witPairs
    ∧ (recommendModel witDf (some "sql") (-3) witPairs).length
        ≤ (if (-3 : Int) ≤ 0 then (10 : Int) else -3).toNat
    ∧ ∀ fr ∈ recommendModel witDf (some "sql") (-3) witPairs,
        ∃ r ∈ boost_by_text_match (buildCandidates witDf witPairs)
            (pyStrip ((some "sql" : Option String).getD "")) (1/4), fr = toFinal r :=
  recommend_topk_defaulted_truncated_projected witDf (some "sql") (-3) witPairs

/-! ## Claim C10 -/

/-- C10. For a non-empty query, `boost_by_text_match` only rewrites the
`score` and `_text_match_count` fields: taken up to those two fields, the
output is a permutation of the input (no record added or removed, all other
fields intact on every record). -/
theorem boost_by_text_match_frame (rs : List ResultRec) (q : String) (h : q ≠ "") :
    ((boost_by_text_match rs q).map projOther).Perm (rs.map projOther)
    ∧ (boost_by_text_match rs q).length = rs.length
    ∧ ∀ r2 ∈ boost_by_text_match rs q, ∃ r ∈ rs, projOther r2 = projOther r := by
  have hperm : (boost_by_text_match rs q).Perm (rs.map (boostRec q (1/4))) := by
    rw [boost_by_text_match, if_neg h]
    exact List.perm_insertionSort scoreGe _
  have hcomp : (rs.map (boostRec q (1/4))).map projOther = rs.map projOther := by
    rw [List.map_map]
    rfl
  refine ⟨?_, ?_, ?_⟩
  · exact hcomp ▸ hperm.map projOther
  · rw [hperm.length_eq, List.length_map]
  · intro r2 h2
    obtain ⟨r, hr, rfl⟩ := List.mem_map.1 (hperm.mem_iff.1 h2)
    exact ⟨r, hr, rfl⟩

/-- C10, witness: the frame property on a concrete two-candidate list and
the query `"python sql"`. -/
theorem boost_by_text_match_frame_witness :
    ("python sql" ≠ "")
    ∧ (((boost_by_text_match [cexA, cexB] "python sql").map projOther).Perm
          ([cexA, cexB].map projOther)
        ∧ (boost_by_text_match [cexA, cexB] "python sql").length = [cexA, cexB].length
        ∧ ∀ r2 ∈ boost_by_text_match [cexA, cexB] "python sql",
            ∃ r ∈ [cexA, cexB], projOther r2 = projOther r) :=
  ⟨by decide, boost_by_text_match_frame [cexA, cexB] "python sql" (by decide)⟩

/-! ## Claim C2 -/

unseal Rat.mul Rat.inv Rat.add Rat.sub in
/-- C2, counterexample. The claim promises that every candidate matching
at least one desired term keeps a rank no worse than its pure-similarity
rank.  For the query `"python sql"`, candidate A (similarity 0.9, matching
one term) is overtaken by candidate B (similarity 0.8, matching two terms):
the rank of A degrades from 0 to 1 even though A matched a term. -/
theorem boost_rank_can_worsen_for_matching_candidate :
    1 ≤ matchCount "python sql" cexA
    ∧ cexB.score < cexA.score
    ∧ [cexA, cexB].findIdx (fun r => r.assessment_id == "A") = 0
    ∧ (boost_by_text_match [cexA, cexB] "python sql").findIdx
        (fun r => r.assessment_id == "A") = 1 := by
  decide

/-- Every record of a boosted list is the composed-score update of an input
record. -/
theorem boost_mem_imp_boostRec (rs : List ResultRec) (q : String) (hq : q ≠ "")
    (r2 : ResultRec) (h2 : r2 ∈ boost_by_text_match rs q) :
    ∃ r ∈ rs, r2 = boostRec q (1/4) r := by
  rw [boost_by_text_match, if_neg hq] at h2
  obtain ⟨r, hr, rfl⟩ :=
    List.mem_map.1 ((List.perm_insertionSort scoreGe _).mem_iff.1 h2)
  exact ⟨r, hr, rfl⟩

/-- C2 (amended). For every candidate list and non-empty query, each
boosted record composed score is its similarity plus 0.25 per matched
desired term — strictly larger when at least one term matched, unchanged when
none matched.  The rank guarantee holds in the scenario given by the spec itself of a
*single* matching candidate: if the input is in descending pure-similarity
order with pairwise-distinct identifiers and exactly one candidate matches a
desired term (all others match none), the position of that candidate in the
re-sorted list is no worse than its input position.  (In general a candidate
matching more terms may overtake one matching fewer: see the
counterexample.) -/
theorem boost_composed_scores_and_single_matcher_rank
    (q : String) (l1 l2 : List ResultRec) (z : ResultRec)
    (hq : q ≠ "")
    (hids : ((l1 ++ z :: l2).map ResultRec.assessment_id).Nodup)
    (hsorted : (l1 ++ z :: l2).Pairwise scoreGe)
    (hz : 1 ≤ matchCount q z)
    (hoth : ∀ y ∈ l1 ++ l2, matchCount q y = 0) :
    (∀ rs : List ResultRec, ∀ r2 ∈ boost_by_text_match rs q,
        ∃ r ∈ rs, projOther r2 = projOther r
          ∧ r2.score = r.score + (matchCount q r : ℚ) * (1/4)
          ∧ (matchCount q r = 0 → r2.score = r.score)
          ∧ (1 ≤ matchCount q r → r.score < r2.score))
    ∧ (boost_by_text_match (l1 ++ z :: l2) q).findIdx
        (fun r => r.assessment_id == z.assessment_id) ≤ l1.length := by
  have hupd : ∀ r : ResultRec,
      (boostRec q (1/4) r).score = r.score + (matchCount q r : ℚ) * (1/4) :=
    fun r => rfl
  have hlt : ∀ r : ResultRec, 1 ≤ matchCount q r →
      r.score < (boostRec q (1/4) r).score := by
    intro r h1
    have h1' : (0:ℚ) < (matchCount q r : ℚ) :=
      lt_of_lt_of_le zero_lt_one (by exact_mod_cast h1)
    have hpos : (0:ℚ) < (matchCount q r : ℚ) * (1/4) :=
      mul_pos h1' (by norm_num)
    rw [hupd r]
    exact lt_add_of_pos_right r.score hpos
  constructor
  · intro rs r2 h2
    obtain ⟨r, hr, rfl⟩ := boost_mem_imp_boostRec rs q hq r2 h2
    refine ⟨r, hr, rfl, hupd r, ?_, hlt r⟩
    intro h0
    rw [hupd r, h0]
    simp
  · rw [boost_by_text_match, if_neg hq]
    set rs := l1 ++ z :: l2 with hrs
    set u := boostRec q (1/4) with hu
    set out := List.insertionSort scoreGe (rs.map u) with hout
    set p : ResultRec → Bool := fun r => r.assessment_id == z.assessment_id with hp
    have hperm : out.Perm (rs.map u) := List.perm_insertionSort scoreGe _
    have hsortedOut : out.Pairwise scoreGe := List.sorted_insertionSort scoreGe _
    have hzrs : z ∈ rs := List.mem_append.2 (Or.inr (List.mem_cons_self z l2))
    have hzin : u z ∈ out := hperm.mem_iff.2 (List.mem_map_of_mem u hzrs)
    have hpz : p (u z) = true := by simp [hp, hu, boostRec]
    have hnlt : out.findIdx p < out.length :=
      List.findIdx_lt_length_of_exists ⟨u z, hzin, hpz⟩
    have hpn : p out[out.findIdx p] = true := List.findIdx_getElem
    have hmemout : out[out.findIdx p] ∈ out := List.getElem_mem hnlt
    obtain ⟨y, hy, hyu⟩ := List.mem_map.1 (hperm.mem_iff.1 hmemout)
    have hid : y.assessment_id = z.assessment_id := by
      rw [← hyu] at hpn
      simpa [hp, hu, boostRec] using hpn
    have hyz : y = z := List.inj_on_of_nodup_map hids hy hzrs hid
    have hgetz : out[out.findIdx p] = u z := by rw [← hyu, hyz]
    have hscorez : z.score < (u z).score := hlt z hz
    have hl2le : ∀ y2 ∈ l2, y2.score ≤ z.score := by
      have h1 := (List.pairwise_append.1 hsorted).2.1
      exact fun y2 hy2 => (List.pairwise_cons.1 h1).1 y2 hy2
    set Q : ResultRec → Bool :=
      fun r => decide ((u z).score ≤ r.score) && !(r.assessment_id == z.assessment_id)
      with hQ
    have htake : ∀ x ∈ out.take (out.findIdx p), Q x = true := by
      intro x hx
      obtain ⟨i, hi, rfl⟩ := List.mem_iff_getElem.1 hx
      have hlen : (out.take (out.findIdx p)).length = out.findIdx p := by
        rw [List.length_take]
        exact Nat.min_eq_left (Nat.le_of_lt hnlt)
      have hifind : i < out.findIdx p := hlen ▸ hi
      have hilen : i < out.length := lt_trans hifind hnlt
      have hgt : (out.take (out.findIdx p))[i] = out[i] := List.getElem_take _
      rw [hgt]
      have hnp : p out[i] = false := List.not_of_lt_findIdx hifind
      have hge : scoreGe out[i] out[out.findIdx p] :=
        List.pairwise_iff_getElem.1 hsortedOut i (out.findIdx p) hilen hnlt hifind
      rw [hgetz] at hge
      simp only [hQ, Bool.and_eq_true, decide_eq_true_eq, Bool.not_eq_true']
      exact ⟨hge, by simpa [hp] using hnp⟩
    have hcount : out.findIdx p ≤ rs.countP (fun y2 => Q (u y2)) := by
      have h1 : out.findIdx p = (out.take (out.findIdx p)).countP Q := by
        rw [List.countP_eq_length.2 htake, List.length_take,
          Nat.min_eq_left (Nat.le_of_lt hnlt)]
      rw [h1]
      calc (out.take (out.findIdx p)).countP Q
          ≤ out.countP Q := (List.take_sublist _ _).countP_le Q
        _ = (rs.map u).countP Q := hperm.countP_eq Q
        _ = rs.countP (fun y2 => Q (u y2)) := List.countP_map Q u rs
    have hQz : Q (u z) = false := by simp [hQ, hu, boostRec]
    have hQl2 : ∀ y2 ∈ l2, Q (u y2) = false := by
      intro y2 hy2
      have hmc : matchCount q y2 = 0 := hoth y2 (List.mem_append.2 (Or.inr hy2))
      have hscore : (u y2).score = y2.score := by
        rw [hu, hupd y2, hmc]
        simp
      have hnotle : ¬ ((u z).score ≤ (u y2).score) := by
        rw [hscore]
        exact not_le.2 (lt_of_le_of_lt (hl2le y2 hy2) hscorez)
      simp [hQ, hnotle]
    have hsplit : rs.countP (fun y2 => Q (u y2)) ≤ l1.length := by
      rw [hrs, List.countP_append, List.countP_cons]
      have h2 : (l2.countP fun y2 => Q (u y2)) = 0 :=
        List.countP_eq_zero.2 (fun y2 hy2 => by simp [hQl2 y2 hy2])
      rw [h2, hQz]
      simpa using List.countP_le_length (fun y2 => Q (u y2))
    exact le_trans hcount hsplit

unseal Rat.mul Rat.inv Rat.add Rat.sub in
/-- C2, witness: three candidates in descending similarity order where
only the middle one matches the query `"kubernetes"`; its rank may only
improve. -/
theorem boost_composed_scores_and_single_matcher_rank_witness :
    (("kubernetes" : String) ≠ ""
      ∧ (([wit1] ++ wit2 :: [wit3]).map ResultRec.assessment_id).Nodup
      ∧ ([wit1] ++ wit2 :: [wit3]).Pairwise scoreGe
      ∧ 1 ≤ matchCount "kubernetes" wit2
      ∧ ∀ y ∈ [wit1] ++ [wit3], matchCount "kubernetes" y = 0)
    ∧ ((∀ rs : List ResultRec, ∀ r2 ∈ boost_by_text_match rs "kubernetes",
          ∃ r ∈ rs, projOther r2 = projOther r
            ∧ r2.score = r.score + (matchCount "kubernetes" r : ℚ) * (1/4)
            ∧ (matchCount "kubernetes" r = 0 → r2.score = r.score)
            ∧ (1 ≤ matchCount "kubernetes" r → r.score < r2.score))
        ∧ (boost_by_text_match ([wit1] ++ wit2 :: [wit3]) "kubernetes").findIdx
            (fun r => r.assessment_id == wit2.assessment_id) ≤ [wit1].length) :=
  ⟨⟨by decide, by decide, by decide, by decide, by decide⟩,
    boost_composed_scores_and_single_matcher_rank "kubernetes" [wit1] [wit3] wit2
      (by decide) (by decide) (by decide) (by decide) (by decide)⟩
